import Mathlib

/-!
Verification of the adaptive tutoring engine in `src/engine.py` of the
Rancho-AI-Tutor repository.  The Python functions are embedded shallowly:
question records (JSON dictionaries) become a structure of optional fields,
`dict.get` defaults become `Option.getD`, Python floats become exact
rationals, and the one place an exception can escape `evaluate_answer`
(coercion of a numeric question's stored answer) is modelled with `Except`.
-/

attribute [local semireducible] Rat.add Rat.mul Rat.inv Rat.sub Rat.ofScientific

/-- Decimal value of a list of digit characters, most significant first. -/
def natOfDigitList (cs : List Char) : Nat :=
  cs.foldl (fun n c => 10 * n + (c.toNat - 48)) 0

/-- Python `str.strip` whitespace test, restricted to the ASCII whitespace
characters. -/
def pyIsSpace (c : Char) : Bool :=
  c == ' ' || c == '\t' || c == '\n' || c == '\r' || c.toNat == 11 || c.toNat == 12

/-- Model of Python `str.strip()`: drop leading and trailing whitespace. -/
def pyStripList (cs : List Char) : List Char :=
  ((cs.dropWhile pyIsSpace).reverse.dropWhile pyIsSpace).reverse

/-- Model of Python `str.strip()` on strings. -/
def pyStrip (s : String) : String := String.mk (pyStripList s.toList)

/-- Model of Python `str.lower()`, restricted to ASCII letters. -/
def pyLower (s : String) : String := String.mk (s.toList.map Char.toLower)

/-- Embedding of Python `str.isdigit` restricted to ASCII digits: the string is
nonempty and every character is one of `0`-`9` (`engine.py` line 44 applies it
to an already trimmed, lower-cased string). -/
def isDigitStr (s : String) : Bool :=
  !s.isEmpty && s.toList.all Char.isDigit

/-- Embedding of `int(s)` on a digit string. -/
def natOfDigitStr (s : String) : Nat := natOfDigitList s.toList

/-- Splitting a character list at every slash, the model of the string method
`split("/")` applied by the SymPy fragment model below. -/
def splitSlashAux : List Char → List Char → List (List Char)
  | [], acc => [acc.reverse]
  | c :: rest, acc =>
      if c == '/' then acc.reverse :: splitSlashAux rest []
      else splitSlashAux rest (c :: acc)

/-- Model of the Python builtin `float(s)` on strings, for the decimal-literal
fragment the engine relies on: optional sign, then `digits`, `digits.digits`,
`digits.` or `.digits`, with surrounding whitespace ignored.  Anything else
(fractions such as `1/2`, words such as `abc`) is `none`, standing for a
raised `ValueError`.  Values are exact rationals; the binary rounding of IEEE
doubles is not modelled. -/
def pyFloatList (cs0 : List Char) : Option ℚ :=
  let core : List Char → Option ℚ := fun cs =>
    let intPart := cs.takeWhile Char.isDigit
    let rest := cs.drop intPart.length
    match rest with
    | [] => if intPart.isEmpty then none else some (natOfDigitList intPart)
    | '.' :: frac =>
        if frac.all Char.isDigit && !(intPart.isEmpty && frac.isEmpty) then
          some ((natOfDigitList intPart : ℚ) +
            (natOfDigitList frac : ℚ) / (10 : ℚ) ^ frac.length)
        else none
    | _ => none
  match pyStripList cs0 with
  | '-' :: cs => (core cs).map Neg.neg
  | '+' :: cs => core cs
  | cs => core cs

/-- Model of the Python builtin `float(s)` on strings; see `pyFloatList`. -/
def pyFloat (s : String) : Option ℚ := pyFloatList s.toList

/-- Model of `float(sympify(s))` — SymPy expression evaluation followed by
float coercion — on the arithmetic fragment the engine relies on: a decimal
literal, or a quotient `a/b` of two decimal literals with `b ≠ 0`.  Inputs
that evaluate to a non-numeric symbol (such as `abc`) or to complex infinity
(`1/0`), which `float` rejects, are `none`, standing for a raised
exception. -/
def pySympifyFloat (s : String) : Option ℚ :=
  match splitSlashAux (pyStripList s.toList) [] with
  | [a] => pyFloatList a
  | [a, b] =>
      match pyFloatList a, pyFloatList b with
      | some x, some y => if y = 0 then none else some (x / y)
      | _, _ => none
  | _ => none

/-- A question record.  In `engine.py` questions are JSON dictionaries read
with `dict.get`; optional fields model absent keys, and the listed defaults
are the `get` defaults used by the source.  The `answer` field is modelled as
an optional string (the source applies `str(...)` where it matters, and an
absent answer is Python `None`, whose `str` form is `"None"`). -/
structure Question where
  id : Option String := none
  subject : Option String := none
  topic : Option String := none
  difficulty : Option Int := none
  type : Option String := none
  question : Option String := none
  answer : Option String := none
  options : List String := []
  tolerance : Option ℚ := none
  aliases : List String := []
deriving DecidableEq, Repr

/-- Embedding of `filter_questions` (`engine.py` lines 28-32): the narrow pool
keeps questions whose subject matches case-insensitively and whose difficulty
(absent defaults to 1) is within 1 of the requested level; when the narrow
pool is empty the subject-only pool is returned instead. -/
def filter_questions (questions : List Question) (subject : String)
    (difficulty : Int) : List Question :=
  let pool := questions.filter (fun q =>
    (pyLower (q.subject.getD "") == pyLower subject) &&
      decide ((q.difficulty.getD 1 - difficulty).natAbs ≤ 1))
  if pool.isEmpty then
    questions.filter (fun q => pyLower (q.subject.getD "") == pyLower subject)
  else pool

/-- Embedding of `clamp` (`engine.py` lines 34-35): `max(lo, min(hi, n))`. -/
def clamp (n lo hi : Int) : Int := max lo (min hi n)

/-- The mcq index-resolution step of `evaluate_answer` (`engine.py` lines
44-47).  The argument `ui` is the already trimmed, lower-cased input: when it
is a digit string and the options list is nonempty and the 1-based index it
denotes is in range, it is replaced by that option's trimmed, lower-cased
text; otherwise it is kept as is. -/
def mcqResolve (options : List String) (ui : String) : String :=
  if isDigitStr ui && !options.isEmpty then
    let idx : Int := (natOfDigitStr ui : Int) - 1
    if 0 ≤ idx ∧ idx < options.length then
      match options.get? idx.toNat with
      | some o => pyLower (pyStrip o)
      | none => ui
    else ui
  else ui

/-- Coercion of a numeric question's stored answer to its target value
(`engine.py` lines 50-53): plain `float` first, then SymPy evaluation.  An
absent answer is Python `None`, which fails the plain parse and is fed to
`sympify` as the string `None`. -/
def numericTarget (q : Question) : Option ℚ :=
  match pyFloat (q.answer.getD "None") with
  | some v => some v
  | none => pySympifyFloat (q.answer.getD "None")

/-- Parsing of the user's input for a numeric question (`engine.py` lines
55-61): SymPy evaluation first, then plain `float`. -/
def numericUserVal (input : String) : Option ℚ :=
  match pySympifyFloat input with
  | some v => some v
  | none => pyFloat input

/-- Embedding of `evaluate_answer` (`engine.py` lines 37-72).  The `Except`
error case models an exception escaping the function (only possible when a
numeric question's stored answer fails both coercions); the display component
is an `Option String` because the text branch returns the stored
`q.get("answer")`, which is Python `None` when the field is absent. -/
def evaluate_answer (q : Question) (user_input : String) :
    Except String (Bool × Option String) :=
  let t := q.type.getD "mcq"
  if t = "mcq" then
    let ans := pyLower (pyStrip (q.answer.getD ""))
    let ui := mcqResolve q.options (pyLower (pyStrip user_input))
    .ok (ui == ans, some ans)
  else if t = "numeric" then
    match numericTarget q with
    | none => .error "TypeError"
    | some target =>
      let tol := q.tolerance.getD (1 / 100)
      match numericUserVal user_input with
      | none => .ok (false, some (q.answer.getD "None"))
      | some uiVal => .ok (decide (|uiVal - target| ≤ tol), some (q.answer.getD "None"))
  else
    let ui := pyLower (pyStrip user_input)
    let ans := pyLower (pyStrip (q.answer.getD ""))
    if ui == ans then .ok (true, q.answer)
    else if q.aliases.any (fun a => ui == pyLower (pyStrip a)) then .ok (true, q.answer)
    else .ok (false, q.answer)

/-- Embedding of the `AdaptiveSelector` state (`engine.py` lines 120-129): a
single integer difficulty. -/
structure AdaptiveSelector where
  d : Int
deriving DecidableEq, Repr

/-- Embedding of `AdaptiveSelector.update` (`engine.py` lines 128-129). -/
def AdaptiveSelector.update (s : AdaptiveSelector) (was_correct : Bool) :
    AdaptiveSelector :=
  ⟨clamp (s.d + (if was_correct then 1 else -1)) 1 5⟩

/-- A sequence of `update` calls, applied left to right. -/
def AdaptiveSelector.runUpdates (s : AdaptiveSelector) : List Bool → AdaptiveSelector
  | [] => s
  | b :: bs => (s.update b).runUpdates bs

/-- An attempt event as appended by `record_event` (`engine.py` lines 84-91). -/
structure AttemptEvent where
  ts : String
  subject : String
  topic : String
  difficulty : Int
  correct : Bool
  qid : Option String
deriving DecidableEq, Repr

/-- The progress document, modelled as the map from user name to that user's
history list (`progress["users"][user]["history"]`); a user absent from the
document has the empty history, matching the `setdefault` calls of the
source. -/
def Progress : Type := String → List AttemptEvent

/-- The event that `record_event` builds (`engine.py` lines 84-91); the
timestamp is a parameter standing for `datetime.now().isoformat(...)`. -/
def mkAttemptEvent (ts subject : String) (q : Question) (correct : Bool) :
    AttemptEvent :=
  { ts := ts, subject := subject, topic := q.topic.getD "",
    difficulty := q.difficulty.getD 1, correct := correct, qid := q.id }

/-- Embedding of `record_event` (`engine.py` lines 80-92) as a pure
transformer of the progress document; the source loads the document from
disk, appends the event to the user's history and saves the document back. -/
def record_event (p : Progress) (user subject : String) (q : Question)
    (correct : Bool) (ts : String) : Progress :=
  fun x => if x = user then p x ++ [mkAttemptEvent ts subject q correct] else p x

/-- Rounding to the nearest integer with ties to even, the rounding mode of
the Python builtin `round`. -/
def roundHalfEven (x : ℚ) : ℤ :=
  if x - ⌊x⌋ < 1 / 2 then ⌊x⌋
  else if 1 / 2 < x - ⌊x⌋ then ⌊x⌋ + 1
  else if 2 ∣ ⌊x⌋ then ⌊x⌋ else ⌊x⌋ + 1

/-- Model of Python `round(x, 1)` over exact rationals. -/
def round1 (x : ℚ) : ℚ := (roundHalfEven (10 * x) : ℚ) / 10

/-- One entry of the report's `topic_stats` list (`engine.py` line 111). -/
structure TopicStat where
  topic : String
  attempts : Nat
  accuracy : ℚ
deriving DecidableEq, Repr

/-- The structure returned by `compute_report` (`engine.py` line 118). -/
structure Report where
  total : Nat
  accuracy : ℚ
  topic_stats : List TopicStat
  recommendations : List String
deriving DecidableEq, Repr

/-- The comparison used by `topic_stats.sort(key=lambda x: x["accuracy"])`. -/
def accLE (a b : TopicStat) : Prop := a.accuracy ≤ b.accuracy

instance : DecidableRel accLE := fun a b =>
  inferInstanceAs (Decidable (a.accuracy ≤ b.accuracy))

instance : IsTotal TopicStat accLE := ⟨fun a b => le_total a.accuracy b.accuracy⟩

instance : IsTrans TopicStat accLE := ⟨fun _ _ _ h h2 => le_trans h h2⟩

/-- The fixed recommendation template of `engine.py` line 117.  The source
file's bytes contain a mojibake en dash between `1` and `2` (the characters
U+00E2, U+20AC, U+201C), reproduced here faithfully. -/
def recTemplate (w : String) : String :=
  "Revise basics of " ++ w ++
    ", practice 10 problems at difficulty 1â€“2, then reattempt quiz."

/-- The distinct topics of a history in order of first occurrence: the source
groups events with a Python dict (`engine.py` lines 102-107), and Python
dicts preserve insertion order. -/
def topicsInOrder (hist : List AttemptEvent) : List String :=
  hist.foldl (fun acc h => if acc.contains h.topic then acc else acc ++ [h.topic]) []

/-- The topic-statistics entry built for one topic of the grouped dict
(`engine.py` lines 102-111): the per-topic tallies are read off by counting
matching events, and a topic without events yields no entry (the guard on
line 110). -/
def topicStatFor (hist : List AttemptEvent) (t : String) : Option TopicStat :=
  let tTotal := (hist.filter (fun h => h.topic == t)).length
  let tCorrect := (hist.filter (fun h => h.topic == t && h.correct)).length
  if tTotal = 0 then none
  else some { topic := t, attempts := tTotal,
              accuracy := round1 (100 * (tCorrect : ℚ) / (tTotal : ℚ)) }

/-- Embedding of `compute_report` (`engine.py` lines 94-118) as a function of
the progress document: overall tallies, per-topic statistics, stable
ascending sort by accuracy (`List.insertionSort` models Python's stable
sort), and the recommendation plan. -/
def compute_report (p : Progress) (user : String) : Report :=
  let hist := p user
  let total := hist.length
  let correctCount := (hist.filter (fun h => h.correct)).length
  let acc : ℚ := if total = 0 then 0 else (correctCount : ℚ) / (total : ℚ) * 100
  let topic_stats := (topicsInOrder hist).filterMap (topicStatFor hist)
  let sortedStats := List.insertionSort accLE topic_stats
  let weak := (sortedStats.take 3).map (fun s => s.topic)
  let plan := (weak.filter (fun w => w != "")).map recTemplate
  { total := total, accuracy := round1 acc, topic_stats := sortedStats,
    recommendations := plan }

/-- Any clamp to the range [1,5] lands in [1,5]. -/
theorem clamp_one_five_mem (n : Int) : 1 ≤ clamp n 1 5 ∧ clamp n 1 5 ≤ 5 :=
  ⟨le_max_left 1 (min 5 n), max_le (by norm_num) (min_le_left 5 n)⟩

/-- Difficulty bounds are preserved by any update sequence. -/
theorem runUpdates_mem (s : AdaptiveSelector) (bs : List Bool)
    (h1 : 1 ≤ s.d) (h5 : s.d ≤ 5) :
    1 ≤ (s.runUpdates bs).d ∧ (s.runUpdates bs).d ≤ 5 := by
  induction bs generalizing s with
  | nil => exact ⟨h1, h5⟩
  | cons b bs ih =>
      exact ih (s.update b) (clamp_one_five_mem _).1 (clamp_one_five_mem _).2

/-- Repeated updates by the same verdict keep a pinned boundary value. -/
theorem runUpdates_replicate_fixed (s : AdaptiveSelector) (n : Nat) :
    (s.d = 5 → (s.runUpdates (List.replicate n true)).d = 5) ∧
    (s.d = 1 → (s.runUpdates (List.replicate n false)).d = 1) := by
  induction n generalizing s with
  | zero => exact ⟨fun h => h, fun h => h⟩
  | succ n ih =>
      constructor
      · intro h
        have hstep : (s.update true).d = 5 := by
          simp [AdaptiveSelector.update, clamp, h]
        simpa [List.replicate_succ, AdaptiveSelector.runUpdates] using
          (ih (s.update true)).1 hstep
      · intro h
        have hstep : (s.update false).d = 1 := by
          simp [AdaptiveSelector.update, clamp, h]
        simpa [List.replicate_succ, AdaptiveSelector.runUpdates] using
          (ih (s.update false)).2 hstep

/-- C6: from any starting difficulty in [1,5], every sequence of `update`
calls keeps the difficulty in [1,5]; a correct update is an increment capped
at 5, an incorrect one a decrement floored at 1; repeated correct updates
from 5 stay at 5 and repeated incorrect updates from 1 stay at 1. -/
theorem adaptiveSelector_bounds (s : AdaptiveSelector) (bs : List Bool) (n : Nat)
    (h1 : 1 ≤ s.d) (h5 : s.d ≤ 5) :
    (1 ≤ (s.runUpdates bs).d ∧ (s.runUpdates bs).d ≤ 5) ∧
    (s.update true).d = min (s.d + 1) 5 ∧
    (s.update false).d = max (s.d - 1) 1 ∧
    (AdaptiveSelector.runUpdates ⟨5⟩ (List.replicate n true)).d = 5 ∧
    (AdaptiveSelector.runUpdates ⟨1⟩ (List.replicate n false)).d = 1 := by
  refine ⟨runUpdates_mem s bs h1 h5, ?_, ?_, ?_, ?_⟩
  · simp only [AdaptiveSelector.update, clamp, if_true, max_def, min_def]
    split_ifs <;> omega
  · simp only [AdaptiveSelector.update, clamp, Bool.false_eq_true, if_false,
      max_def, min_def]
    split_ifs <;> omega
  · exact (runUpdates_replicate_fixed ⟨5⟩ n).1 rfl
  · exact (runUpdates_replicate_fixed ⟨1⟩ n).2 rfl

/-- Closed instantiation of `adaptiveSelector_bounds`. -/
theorem adaptiveSelector_bounds_witness :
    1 ≤ (AdaptiveSelector.runUpdates ⟨2⟩ [true, true, true, true]).d ∧
    (AdaptiveSelector.runUpdates ⟨2⟩ [true, true, true, true]).d ≤ 5 :=
  (adaptiveSelector_bounds ⟨2⟩ [true, true, true, true] 0 (by decide) (by decide)).1

/-- C7: `record_event` appends exactly one event, carrying the timestamp,
subject, and the question's topic, difficulty and id together with the
verdict, to the acting user's history, and leaves every other user's history
unchanged. -/
theorem record_event_append (p : Progress) (user subject : String) (q : Question)
    (correct : Bool) (ts : String) :
    record_event p user subject q correct ts user =
      p user ++ [{ ts := ts, subject := subject, topic := q.topic.getD "",
                   difficulty := q.difficulty.getD 1, correct := correct,
                   qid := q.id }] ∧
    ∀ other : String, other ≠ user →
      record_event p user subject q correct ts other = p other := by
  constructor
  · simp [record_event, mkAttemptEvent]
  · intro other h
    simp [record_event, h]

/-- Closed instantiation of `record_event_append`. -/
theorem record_event_append_witness :
    record_event (fun _ => []) "alice" "Math" {} true "2026-02-03T00:00:00" "bob" = [] :=
  (record_event_append (fun _ => []) "alice" "Math" {} true "2026-02-03T00:00:00").2
    "bob" (by decide)

/-- C1: `filter_questions` returns the questions matching the subject
case-insensitively with difficulty within 1 of the request, falling back to
all case-insensitive subject matches when that narrow pool is empty; hence
the result is non-empty whenever some question's subject matches. -/
theorem filter_questions_correct (questions : List Question) (S : String) (D : Int) :
    filter_questions questions S D =
      (if (questions.filter (fun q =>
            (pyLower (q.subject.getD "") == pyLower S) &&
              decide ((q.difficulty.getD 1 - D).natAbs ≤ 1))).isEmpty
       then questions.filter (fun q => pyLower (q.subject.getD "") == pyLower S)
       else questions.filter (fun q =>
            (pyLower (q.subject.getD "") == pyLower S) &&
              decide ((q.difficulty.getD 1 - D).natAbs ≤ 1))) ∧
    ((∃ q ∈ questions, pyLower (q.subject.getD "") = pyLower S) →
      filter_questions questions S D ≠ []) := by
  constructor
  · rfl
  · rintro ⟨q, hq, hsub⟩
    have hne : questions.filter (fun r => pyLower (r.subject.getD "") == pyLower S) ≠ [] :=
      List.ne_nil_of_mem (List.mem_filter.mpr ⟨hq, by simp [hsub]⟩)
    unfold filter_questions
    by_cases hp : (questions.filter (fun r =>
        (pyLower (r.subject.getD "") == pyLower S) &&
          decide ((r.difficulty.getD 1 - D).natAbs ≤ 1))).isEmpty
    · simpa [hp] using hne
    · rw [if_neg hp]
      simpa [List.isEmpty_iff] using hp

/-- Closed instantiation of `filter_questions_correct`. -/
theorem filter_questions_correct_witness :
    filter_questions [{ subject := some "Math", difficulty := some 3 }] "MATH" 5 ≠ [] :=
  (filter_questions_correct [{ subject := some "Math", difficulty := some 3 }] "MATH" 5).2
    ⟨{ subject := some "Math", difficulty := some 3 }, by decide, by decide⟩

/-- C2: for mcq questions the evaluator returns the trimmed, lower-cased
stored answer as display, and the verdict compares the trimmed, lower-cased
input — resolved to the matching option's trimmed, lower-cased text when it
is a digit string denoting a valid 1-based index into the options — against
that canonical answer; with options Paris/London/Rome and answer London,
inputs 2 and LONDON (any case or whitespace) grade correct, 5 and Berlin
incorrect. -/
theorem evaluate_answer_mcq_spec :
    (∀ (q : Question) (input : String), q.type.getD "mcq" = "mcq" →
      evaluate_answer q input =
        .ok (mcqResolve q.options (pyLower (pyStrip input)) ==
               pyLower (pyStrip (q.answer.getD "")),
             some (pyLower (pyStrip (q.answer.getD ""))))) ∧
    (∀ (options : List String) (ui : String),
      (isDigitStr ui = false → mcqResolve options ui = ui) ∧
      (∀ i : Nat, isDigitStr ui = true → natOfDigitStr ui = i + 1 →
        i < options.length →
        ∃ o, options.get? i = some o ∧ mcqResolve options ui = pyLower (pyStrip o)) ∧
      (isDigitStr ui = true →
        (natOfDigitStr ui = 0 ∨ options.length < natOfDigitStr ui) →
        mcqResolve options ui = ui)) ∧
    evaluate_answer { type := some "mcq", options := ["Paris", "London", "Rome"], answer := some "London" } "2" = .ok (true, some "london") ∧
    evaluate_answer { type := some "mcq", options := ["Paris", "London", "Rome"], answer := some "London" } " LONDON  " = .ok (true, some "london") ∧
    evaluate_answer { type := some "mcq", options := ["Paris", "London", "Rome"], answer := some "London" } "5" = .ok (false, some "london") ∧
    evaluate_answer { type := some "mcq", options := ["Paris", "London", "Rome"], answer := some "London" } "Berlin" = .ok (false, some "london") := by
  refine ⟨?_, ?_, by rfl, by rfl, by rfl, by rfl⟩
  · intro q input hty
    simp [evaluate_answer, hty]
  · intro options ui
    refine ⟨?_, ?_, ?_⟩
    · intro h
      simp [mcqResolve, h]
    · intro i hdig hval hlt
      have hne : options.isEmpty = false := by
        cases options
        · simp at hlt
        · rfl
      refine ⟨options.get ⟨i, hlt⟩, List.get?_eq_get hlt, ?_⟩
      have hidx : (natOfDigitStr ui : Int) - 1 = (i : Int) := by
        rw [hval]; push_cast; ring
      simp only [mcqResolve, hdig, hne, Bool.not_false, Bool.and_self, if_true, hidx]
      rw [if_pos ⟨Int.natCast_nonneg i, by exact_mod_cast hlt⟩]
      rw [Int.toNat_natCast, List.get?_eq_get hlt]
    · intro hdig hcase
      cases hoe : options.isEmpty
      · simp only [mcqResolve, hdig, hoe, Bool.not_false, Bool.and_self, if_true]
        rw [if_neg]
        rintro ⟨hge, hlt⟩
        rcases hcase with h0 | hgt
        · rw [h0] at hge; omega
        · rw [Int.lt_iff_add_one_le] at hlt
          have : (natOfDigitStr ui : Int) ≤ (options.length : Int) := by omega
          have : natOfDigitStr ui ≤ options.length := by exact_mod_cast this
          omega
      · simp [mcqResolve, hoe]

/-- Closed instantiation of `evaluate_answer_mcq_spec`. -/
theorem evaluate_answer_mcq_spec_witness :
    mcqResolve ["Paris"] "berlin" = "berlin" :=
  (evaluate_answer_mcq_spec.2.1 ["Paris"] "berlin").1 rfl

/-- C3: for numeric questions the stored answer is coerced (float parse, then
symbolic evaluation) to a target, the input is parsed (symbolic evaluation,
then float parse), the verdict is correct iff the parsed value is within the
tolerance (default 0.01) of the target, a doubly-unparsable input is
incorrect, and the stored answer string is always the display; with answer
0.5 and default tolerance, 1/2 is correct while 0.52 and abc are not.
Numbers are modelled as exact rationals. -/
theorem evaluate_answer_numeric_spec :
    (∀ (q : Question) (input : String) (target : ℚ),
      q.type.getD "mcq" = "numeric" → numericTarget q = some target →
      (∀ v : ℚ, numericUserVal input = some v →
        evaluate_answer q input =
          .ok (decide (|v - target| ≤ q.tolerance.getD (1 / 100)),
               some (q.answer.getD "None"))) ∧
      (numericUserVal input = none →
        evaluate_answer q input = .ok (false, some (q.answer.getD "None")))) ∧
    numericTarget { type := some "numeric", answer := some "0.5" } = some (1 / 2) ∧
    numericUserVal "1/2" = some (1 / 2) ∧
    evaluate_answer { type := some "numeric", answer := some "0.5" } "1/2" = .ok (true, some "0.5") ∧
    evaluate_answer { type := some "numeric", answer := some "0.5" } "0.52" = .ok (false, some "0.5") ∧
    evaluate_answer { type := some "numeric", answer := some "0.5" } "abc" = .ok (false, some "0.5") := by
  refine ⟨?_, by decide, by decide, by rfl, by rfl, by rfl⟩
  intro q input target hty htar
  constructor
  · intro v hv
    simp [evaluate_answer, hty, htar, hv]
  · intro hv
    simp [evaluate_answer, hty, htar, hv]

/-- Closed instantiation of `evaluate_answer_numeric_spec`. -/
theorem evaluate_answer_numeric_spec_witness :
    evaluate_answer { type := some "numeric", answer := some "0.5" } "0.49" =
      .ok (decide (|(49 / 100 : ℚ) - 1 / 2| ≤ (1 / 100 : ℚ)), some "0.5") :=
  ((evaluate_answer_numeric_spec.1 { type := some "numeric", answer := some "0.5" }
      "0.49" (1 / 2) rfl (by decide)).1 (49 / 100) (by decide))

/-- C4 counterexample: the claim says the display component for text
questions is the trimmed, lower-cased stored answer, but on answer Newton
the evaluator returns the stored answer unchanged, which differs from its
lower-cased form. -/
theorem evaluate_answer_text_display_counterexample :
    evaluate_answer { type := some "text", answer := some "Newton", aliases := ["Isaac Newton"] } "newton" = .ok (true, some "Newton") ∧
    some "Newton" ≠ some (pyLower (pyStrip "Newton")) := by
  exact ⟨by rfl, by decide⟩

/-- C4 (amended): for text questions the verdict is true iff the trimmed,
lower-cased input equals the trimmed, lower-cased stored answer or any
trimmed, lower-cased alias, with no partial matching, and the display
component is the stored answer as-is (not lower-cased); newton and
ISAAC NEWTON grade correct against answer Newton with alias Isaac Newton,
Einstein incorrect. -/
theorem evaluate_answer_text_spec :
    (∀ (q : Question) (input : String),
      q.type.getD "mcq" ≠ "mcq" → q.type.getD "mcq" ≠ "numeric" →
      evaluate_answer q input =
        .ok ((pyLower (pyStrip input) == pyLower (pyStrip (q.answer.getD ""))
              || q.aliases.any (fun a => pyLower (pyStrip input) == pyLower (pyStrip a))),
             q.answer)) ∧
    evaluate_answer { type := some "text", answer := some "Newton", aliases := ["Isaac Newton"] } "newton" = .ok (true, some "Newton") ∧
    evaluate_answer { type := some "text", answer := some "Newton", aliases := ["Isaac Newton"] } "  ISAAC NEWTON " = .ok (true, some "Newton") ∧
    evaluate_answer { type := some "text", answer := some "Newton", aliases := ["Isaac Newton"] } "Einstein" = .ok (false, some "Newton") := by
  refine ⟨?_, by rfl, by rfl, by rfl⟩
  intro q input h1 h2
  simp only [evaluate_answer, if_neg h1, if_neg h2]
  cases he : (pyLower (pyStrip input) == pyLower (pyStrip (q.answer.getD ""))) <;>
    cases ha : q.aliases.any (fun a => pyLower (pyStrip input) == pyLower (pyStrip a)) <;>
      simp [he, ha]

/-- Closed instantiation of `evaluate_answer_text_spec`. -/
theorem evaluate_answer_text_spec_witness :
    evaluate_answer { type := some "essay", answer := some " A " } "a" =
      .ok ((pyLower (pyStrip "a") == pyLower (pyStrip " A ")
            || List.any [] (fun a => pyLower (pyStrip "a") == pyLower (pyStrip a))),
           some " A ") :=
  evaluate_answer_text_spec.1 { type := some "essay", answer := some " A " } "a"
    (by decide) (by decide)

/-- C5 counterexample: `evaluate_answer` does not return normally for every
question record — a numeric question whose stored answer fails both
coercions raises — and an out-of-range option index is not always graded
incorrect, since it falls back to a literal comparison with the stored
answer. -/
theorem evaluate_answer_safety_counterexample :
    evaluate_answer { type := some "numeric", answer := some "abc" } "1" = .error "TypeError" ∧
    evaluate_answer { answer := some "7", options := ["a", "b", "c"] } "7" = .ok (true, some "7") := by
  exact ⟨by rfl, by rfl⟩

/-- C5 (amended): for every non-numeric question, and for every numeric
question whose stored answer coerces to a target, `evaluate_answer` returns
normally with a boolean verdict and a display value; a numeric user input
failing both parses is graded incorrect with the canonical answer string
returned; an out-of-range option index falls back to literal text
comparison.  Only a numeric question with an uncoercible stored answer lets
an exception escape. -/
theorem evaluate_answer_safety_spec :
    (∀ (q : Question) (input : String), q.type.getD "mcq" ≠ "numeric" →
      ∃ b disp, evaluate_answer q input = .ok (b, disp)) ∧
    (∀ (q : Question) (input : String) (target : ℚ),
      q.type.getD "mcq" = "numeric" → numericTarget q = some target →
      ∃ b disp, evaluate_answer q input = .ok (b, disp)) ∧
    (∀ (q : Question) (input : String) (target : ℚ),
      q.type.getD "mcq" = "numeric" → numericTarget q = some target →
      numericUserVal input = none →
      evaluate_answer q input = .ok (false, some (q.answer.getD "None"))) := by
  refine ⟨?_, ?_, ?_⟩
  · intro q input h
    by_cases hm : q.type.getD "mcq" = "mcq"
    · have heq : evaluate_answer q input =
          .ok (mcqResolve q.options (pyLower (pyStrip input)) ==
                 pyLower (pyStrip (q.answer.getD "")),
               some (pyLower (pyStrip (q.answer.getD "")))) := by
        simp [evaluate_answer, hm]
      exact ⟨_, _, heq⟩
    · have heq : evaluate_answer q input =
          .ok ((pyLower (pyStrip input) == pyLower (pyStrip (q.answer.getD ""))
                || q.aliases.any (fun a => pyLower (pyStrip input) == pyLower (pyStrip a))),
               q.answer) := by
        simp only [evaluate_answer, if_neg hm, if_neg h]
        cases he : (pyLower (pyStrip input) == pyLower (pyStrip (q.answer.getD ""))) <;>
          cases ha : q.aliases.any (fun a => pyLower (pyStrip input) == pyLower (pyStrip a)) <;>
            simp [he, ha]
      exact ⟨_, _, heq⟩
  · intro q input target hty htar
    cases hu : numericUserVal input with
    | none =>
        have heq : evaluate_answer q input = .ok (false, some (q.answer.getD "None")) := by
          simp [evaluate_answer, hty, htar, hu]
        exact ⟨_, _, heq⟩
    | some v =>
        have heq : evaluate_answer q input =
            .ok (decide (|v - target| ≤ q.tolerance.getD (1 / 100)),
                 some (q.answer.getD "None")) := by
          simp [evaluate_answer, hty, htar, hu]
        exact ⟨_, _, heq⟩
  · intro q input target hty htar hu
    simp [evaluate_answer, hty, htar, hu]

/-- Closed instantiation of `evaluate_answer_safety_spec`. -/
theorem evaluate_answer_safety_spec_witness :
    evaluate_answer { type := some "numeric", answer := some "2" } "zzz" =
      .ok (false, some "2") :=
  evaluate_answer_safety_spec.2.2 { type := some "numeric", answer := some "2" }
    "zzz" 2 rfl (by decide) (by decide)

/-- C10: a question with no type field is graded under mcq semantics (the
implicit default), and a question whose type is any string other than mcq or
numeric is graded under free-text semantics; neither case errors or takes a
distinct verdict path. -/
theorem evaluate_answer_type_dispatch :
    (∀ (q : Question) (input : String), q.type = none →
      evaluate_answer q input =
        .ok (mcqResolve q.options (pyLower (pyStrip input)) ==
               pyLower (pyStrip (q.answer.getD "")),
             some (pyLower (pyStrip (q.answer.getD ""))))) ∧
    (∀ (q : Question) (input : String) (s : String),
      q.type = some s → s ≠ "mcq" → s ≠ "numeric" →
      evaluate_answer q input =
        .ok ((pyLower (pyStrip input) == pyLower (pyStrip (q.answer.getD ""))
              || q.aliases.any (fun a => pyLower (pyStrip input) == pyLower (pyStrip a))),
             q.answer)) := by
  constructor
  · intro q input h
    simp [evaluate_answer, h]
  · intro q input s hs h1 h2
    have ht : q.type.getD "mcq" = s := by rw [hs]; rfl
    simp only [evaluate_answer, ht, if_neg h1, if_neg h2]
    cases he : (pyLower (pyStrip input) == pyLower (pyStrip (q.answer.getD ""))) <;>
      cases ha : q.aliases.any (fun a => pyLower (pyStrip input) == pyLower (pyStrip a)) <;>
        simp [he, ha]

/-- Closed instantiation of `evaluate_answer_type_dispatch`. -/
theorem evaluate_answer_type_dispatch_witness :
    evaluate_answer { answer := some "Paris", options := ["Paris", "Rome"] } "1" =
      .ok (mcqResolve ["Paris", "Rome"] (pyLower (pyStrip "1")) ==
             pyLower (pyStrip "Paris"), some (pyLower (pyStrip "Paris"))) :=
  evaluate_answer_type_dispatch.1 { answer := some "Paris", options := ["Paris", "Rome"] }
    "1" rfl

/-- Unfolded membership characterisation of the topic-collecting fold. -/
theorem mem_topicsInOrder_aux (hist : List AttemptEvent) (acc : List String) (t : String) :
    t ∈ hist.foldl (fun a h => if a.contains h.topic then a else a ++ [h.topic]) acc ↔
      t ∈ acc ∨ ∃ e ∈ hist, e.topic = t := by
  induction hist generalizing acc with
  | nil => simp
  | cons e rest ih =>
      simp only [List.foldl_cons]
      by_cases hc : acc.contains e.topic
      · rw [if_pos hc, ih]
        have hmem : e.topic ∈ acc := by simpa using hc
        constructor
        · rintro (h | ⟨x, hx, hxt⟩)
          · exact Or.inl h
          · exact Or.inr ⟨x, List.mem_cons_of_mem e hx, hxt⟩
        · rintro (h | ⟨x, hx, hxt⟩)
          · exact Or.inl h
          · rcases List.mem_cons.mp hx with rfl | hx2
            · exact Or.inl (hxt ▸ hmem)
            · exact Or.inr ⟨x, hx2, hxt⟩
      · rw [if_neg hc, ih]
        simp only [List.mem_append, List.mem_singleton]
        constructor
        · rintro ((h | h) | ⟨x, hx, hxt⟩)
          · exact Or.inl h
          · exact Or.inr ⟨e, List.mem_cons_self e rest, h.symm⟩
          · exact Or.inr ⟨x, List.mem_cons_of_mem e hx, hxt⟩
        · rintro (h | ⟨x, hx, hxt⟩)
          · exact Or.inl (Or.inl h)
          · rcases List.mem_cons.mp hx with rfl | hx2
            · exact Or.inl (Or.inr hxt.symm)
            · exact Or.inr ⟨x, hx2, hxt⟩

/-- A topic appears in the insertion-ordered topic list exactly when some
event has it. -/
theorem mem_topicsInOrder (hist : List AttemptEvent) (t : String) :
    t ∈ topicsInOrder hist ↔ ∃ e ∈ hist, e.topic = t := by
  unfold topicsInOrder
  rw [mem_topicsInOrder_aux hist [] t]
  simp

/-- C8 counterexample: with three events of which one is correct, the
reported accuracy is the rounded value 33.3, not the exact percentage
100/3 that the claim describes. -/
theorem compute_report_accuracy_counterexample :
    (compute_report (fun _ =>
      [{ ts := "t1", subject := "Math", topic := "Algebra", difficulty := 1, correct := true, qid := none },
       { ts := "t2", subject := "Math", topic := "Algebra", difficulty := 1, correct := false, qid := none },
       { ts := "t3", subject := "Math", topic := "Algebra", difficulty := 1, correct := false, qid := none }]) "u").accuracy = 333 / 10 ∧
    (333 / 10 : ℚ) ≠ (1 / 3) * 100 := by
  exact ⟨by decide, by decide⟩

/-- C8 (amended): `compute_report` returns the event count as total, the
percentage of correct events rounded to one decimal as accuracy (0 with no
events), and topic statistics grouped by topic — each with at least one
attempt, the topic's attempt count, and the topic's rounded accuracy
percentage — sorted ascending by accuracy, every event's topic being
represented; a user with no events gets total 0, accuracy 0 and empty
statistics, and one correct Algebra event yields exactly one entry with one
attempt and accuracy 100. -/
theorem compute_report_spec :
    (∀ (p : Progress) (user : String),
      (compute_report p user).total = (p user).length ∧
      (compute_report p user).accuracy =
        (if (p user).length = 0 then 0
         else round1 ((((p user).filter (fun h => h.correct)).length : ℚ) /
            ((p user).length : ℚ) * 100)) ∧
      List.Sorted accLE (compute_report p user).topic_stats ∧
      (∀ s ∈ (compute_report p user).topic_stats,
        1 ≤ s.attempts ∧
        s.attempts = ((p user).filter (fun h => h.topic == s.topic)).length ∧
        s.accuracy = round1 (100 *
          ((((p user).filter (fun h => h.topic == s.topic && h.correct)).length : ℚ)) /
          ((((p user).filter (fun h => h.topic == s.topic)).length : ℚ)))) ∧
      (∀ e ∈ p user, ∃ s ∈ (compute_report p user).topic_stats, s.topic = e.topic)) ∧
    compute_report (fun _ => []) "u" =
      { total := 0, accuracy := 0, topic_stats := [], recommendations := [] } ∧
    (compute_report (fun _ =>
      [{ ts := "t", subject := "Math", topic := "Algebra", difficulty := 2, correct := true, qid := none }]) "u").topic_stats =
      [{ topic := "Algebra", attempts := 1, accuracy := 100 }] := by
  refine ⟨?_, by decide, by decide⟩
  intro p user
  refine ⟨rfl, ?_, ?_, ?_, ?_⟩
  · by_cases h : (p user).length = 0
    · have h0 : round1 0 = 0 := by decide
      simp [compute_report, h, h0]
    · simp [compute_report, h]
  · exact List.sorted_insertionSort accLE _
  · intro s hs
    rcases List.mem_filterMap.mp ((List.perm_insertionSort accLE _).mem_iff.mp hs)
      with ⟨t, ht, hf⟩
    simp only [topicStatFor] at hf
    by_cases h0 : ((p user).filter (fun h => h.topic == t)).length = 0
    · rw [if_pos h0] at hf
      cases hf
    · rw [if_neg h0] at hf
      have hs3 := Option.some.inj hf
      subst hs3
      exact ⟨Nat.one_le_iff_ne_zero.mpr h0, rfl, rfl⟩
  · intro e he
    have ht : e.topic ∈ topicsInOrder (p user) :=
      (mem_topicsInOrder (p user) e.topic).mpr ⟨e, he, rfl⟩
    have h0 : ((p user).filter (fun h => h.topic == e.topic)).length ≠ 0 := by
      have hmem : e ∈ (p user).filter (fun h => h.topic == e.topic) :=
        List.mem_filter.mpr ⟨he, by simp⟩
      intro hlen
      rw [List.length_eq_zero.mp hlen] at hmem
      cases hmem
    have hst : topicStatFor (p user) e.topic =
        some { topic := e.topic,
               attempts := ((p user).filter (fun h => h.topic == e.topic)).length,
               accuracy := round1 (100 *
                 ((((p user).filter (fun h => h.topic == e.topic && h.correct)).length : ℚ)) /
                 ((((p user).filter (fun h => h.topic == e.topic)).length : ℚ))) } := by
      simp only [topicStatFor]
      rw [if_neg h0]
    exact ⟨_, (List.perm_insertionSort accLE _).mem_iff.mpr
      (List.mem_filterMap.mpr ⟨e.topic, ht, hst⟩), rfl⟩

/-- Closed instantiation of `compute_report_spec`. -/
theorem compute_report_spec_witness :
    (compute_report (fun _ =>
      [{ ts := "t", subject := "Math", topic := "Algebra", difficulty := 2,
         correct := true, qid := none }]) "u").total = 1 :=
  (compute_report_spec.1 (fun _ =>
      [{ ts := "t", subject := "Math", topic := "Algebra", difficulty := 2,
         correct := true, qid := none }]) "u").1

/-- C9: the recommendations are exactly the fixed-template suggestions for
the topics of the first three (lowest-accuracy) topic statistics whose label
is non-empty; the list has at most three entries and every entry references
a non-empty topic of those three via the fixed template. -/
theorem compute_report_recommendations_spec (p : Progress) (user : String) :
    (compute_report p user).recommendations =
      ((((compute_report p user).topic_stats.take 3).map (fun s => s.topic)).filter
        (fun w => w != "")).map recTemplate ∧
    (compute_report p user).recommendations.length ≤ 3 ∧
    ∀ r ∈ (compute_report p user).recommendations,
      ∃ s ∈ (compute_report p user).topic_stats.take 3,
        s.topic ≠ "" ∧ r = recTemplate s.topic := by
  refine ⟨rfl, ?_, ?_⟩
  · show (((((compute_report p user).topic_stats.take 3).map (fun s => s.topic)).filter
        (fun w => w != "")).map recTemplate).length ≤ 3
    rw [List.length_map]
    refine le_trans (List.length_filter_le _ _) ?_
    rw [List.length_map, List.length_take]
    exact min_le_left _ _
  · intro r hr
    rcases List.mem_map.mp hr with ⟨w, hw, rfl⟩
    rcases List.mem_filter.mp hw with ⟨hw2, hwne⟩
    rcases List.mem_map.mp hw2 with ⟨s, hs, rfl⟩
    refine ⟨s, hs, ?_, rfl⟩
    simpa using hwne

/-- Closed instantiation of `compute_report_recommendations_spec`. -/
theorem compute_report_recommendations_spec_witness :
    ∃ s ∈ (compute_report (fun _ =>
      [{ ts := "t", subject := "Math", topic := "Algebra", difficulty := 2,
         correct := true, qid := none }]) "u").topic_stats.take 3,
      s.topic ≠ "" ∧ recTemplate "Algebra" = recTemplate s.topic :=
  (compute_report_recommendations_spec (fun _ =>
      [{ ts := "t", subject := "Math", topic := "Algebra", difficulty := 2,
         correct := true, qid := none }]) "u").2.2 (recTemplate "Algebra") (by decide)
